import Mathlib

/-!
Verification development for the realtime voice-agent gateway.

The definitions below are a shallow embedding of the repository's
JavaScript source: the session registry (modules/session/manager.js),
the per-connection orchestrator (src/websocket/handler.js), the
ElevenLabs TTS adapter (src/modules/tts/elevenlabs.js), the Deepgram and
Groq STT adapters (src/modules/stt/deepgram.js, src/modules/stt/groq.js),
the OpenAI LLM adapter (src/modules/llm/openai.js) and the WebSocket wire
edge (initWebSocketServer in src/websocket/handler.js).

Machine-level conventions: timestamps are Nat milliseconds, audio chunks
are opaque Nat tokens, JavaScript string trimming is modelled by jsTrim
below (dropping leading and trailing whitespace characters), and the
asynchronous callback wiring is modelled by explicit state passing plus
trace fields (lists of emitted events, TTS submissions, appended history
messages).
-/

namespace VoiceAgent

/-- Whitespace test used by the model of the JavaScript string trim
(the characters relevant to this code base: space, tab, newline,
carriage return). -/
def isWS (c : Char) : Bool :=
  c = ' ' || c = '\t' || c = '\n' || c = '\r'

/-- Drop trailing whitespace from a list of characters. -/
def dropTrailingWS (l : List Char) : List Char :=
  (l.reverse.dropWhile isWS).reverse

/-- Model of the JavaScript string trim on the character-list level:
first drop leading whitespace, then trailing whitespace. -/
def jsTrimList (l : List Char) : List Char :=
  dropTrailingWS (l.dropWhile isWS)

/-- Model of the JavaScript text.trim() on Lean strings. -/
def jsTrim (s : String) : String :=
  ⟨jsTrimList s.toList⟩

/-- A conversation turn as stored by SessionManager.addMessage:
role ("user" or "assistant"), content and a timestamp. -/
structure Message where
  role : String
  content : String
  timestamp : Nat
deriving Repr, DecidableEq

/-- Model of the JavaScript slice(-n) on a list (the last n elements);
slice(-0) is slice(0), which returns the whole array. -/
def sliceLast (n : Nat) (l : List Message) : List Message :=
  if n = 0 then l else l.drop (l.length - n)

/-- The history update performed by SessionManager.addMessage: push the
new message, then truncate to the last maxMessages entries whenever the
length exceeds maxMessages. -/
def pushBounded (maxMessages : Nat) (hist : List Message) (m : Message) :
    List Message :=
  let h := hist ++ [m]
  if maxMessages < h.length then sliceLast maxMessages h else h

/-- The per-session flag record created by SessionManager.createSession.
The source object initially lacks the ttsConnected key; the orchestrator
adds it through updateState, so it is modelled here as a field that
starts false. -/
structure SessionState where
  isActive : Bool
  sttConnected : Bool
  ttsConnected : Bool
  llmStreaming : Bool
  ttsStreaming : Bool
deriving Repr, DecidableEq

/-- A session record of the SessionManager (part of the data the claims
read: timestamps, the clientName metadata, the bounded history, the flag
record and an opaque list naming the bound providers). -/
structure Session where
  createdAt : Nat
  lastActivityAt : Nat
  clientName : String
  history : List Message
  state : SessionState
  providers : List String
deriving Repr, DecidableEq

/-- The process-wide registry: an insertion-ordered association list from
session identifier to session record (the JavaScript Map). -/
abbrev Reg : Type := List (String × Session)

/-- Lookup in the registry (Map.get). -/
def regFind : Reg → String → Option Session
  | [], _ => none
  | (k, s) :: rest, sid => if k = sid then some s else regFind rest sid

/-- Replace the value stored under a key already present (in-place object
mutation in the source: the map entry keeps its position). -/
def regUpdate : Reg → String → Session → Reg
  | [], _, _ => []
  | (k, s) :: rest, sid, v =>
      if k = sid then (k, v) :: regUpdate rest sid v
      else (k, s) :: regUpdate rest sid v

/-- Map.set semantics used by createSession: replace the entry when the
key exists, otherwise append it in insertion order. -/
def regSet (reg : Reg) (sid : String) (v : Session) : Reg :=
  match regFind reg sid with
  | some _ => regUpdate reg sid v
  | none => reg ++ [(sid, v)]

/-- Map.delete semantics used by destroySession. -/
def regRemove (reg : Reg) (sid : String) : Reg :=
  reg.filter (fun p => decide (p.1 ≠ sid))

/-- The fresh session record built by SessionManager.createSession. -/
def freshSession (now : Nat) (clientName : String) : Session :=
  { createdAt := now
    lastActivityAt := now
    clientName := clientName
    history := []
    state :=
      { isActive := false, sttConnected := false, ttsConnected := false
        llmStreaming := false, ttsStreaming := false }
    providers := [] }

/-- SessionManager.getSession: a lookup that, when the session exists,
sets lastActivityAt to the current time; a missing id changes nothing.
Returns the (updated) session and the resulting registry. -/
def getSession (now : Nat) (reg : Reg) (sid : String) :
    Option Session × Reg :=
  match regFind reg sid with
  | none => (none, reg)
  | some s =>
      let s2 := { s with lastActivityAt := now }
      (some s2, regUpdate reg sid s2)

/-- SessionManager.addMessage: getSession (refreshing lastActivityAt),
then push the turn and truncate to the last maxMessages entries. -/
def smAddMessage (maxMessages now : Nat) (reg : Reg) (sid role content : String) :
    Reg :=
  match getSession now reg sid with
  | (none, r) => r
  | (some s, r) =>
      regUpdate r sid
        { s with history := pushBounded maxMessages s.history ⟨role, content, now⟩ }

/-- SessionManager.getFormattedHistory: getSession, then project the
history to (role, content) pairs; a missing id yields the empty list. -/
def getFormattedHistory (now : Nat) (reg : Reg) (sid : String) :
    List (String × String) × Reg :=
  match getSession now reg sid with
  | (none, r) => ([], r)
  | (some s, r) => (s.history.map (fun m => (m.role, m.content)), r)

/-- The record returned by SessionManager.getSessionStats. -/
structure SessionStats where
  duration : Nat
  messageCount : Nat
  lastActivity : Nat
  isActive : Bool
  clientName : String
deriving Repr, DecidableEq

/-- SessionManager.getSessionStats: getSession, then compute the stats
record (lastActivity is measured from the just-refreshed timestamp). -/
def getSessionStats (now : Nat) (reg : Reg) (sid : String) :
    Option SessionStats × Reg :=
  match getSession now reg sid with
  | (none, r) => (none, r)
  | (some s, r) =>
      (some { duration := now - s.createdAt
              messageCount := s.history.length
              lastActivity := now - s.lastActivityAt
              isActive := s.state.isActive
              clientName := s.clientName }, r)

/-- SessionManager.getProviders: getSession, then return the providers
(the source falls back to an empty object for a missing session). -/
def getProviders (now : Nat) (reg : Reg) (sid : String) :
    List String × Reg :=
  match getSession now reg sid with
  | (none, r) => ([], r)
  | (some s, r) => (s.providers, r)

/-- A state update object passed to SessionManager.updateState: fields
absent from the JavaScript object literal are modelled as none. -/
structure StateUpdate where
  isActive : Option Bool
  sttConnected : Option Bool
  ttsConnected : Option Bool
  llmStreaming : Option Bool
  ttsStreaming : Option Bool
deriving Repr, DecidableEq

/-- Object-spread merge of a state update into a session state. -/
def applyUpdate (st : SessionState) (u : StateUpdate) : SessionState :=
  { isActive := u.isActive.getD st.isActive
    sttConnected := u.sttConnected.getD st.sttConnected
    ttsConnected := u.ttsConnected.getD st.ttsConnected
    llmStreaming := u.llmStreaming.getD st.llmStreaming
    ttsStreaming := u.ttsStreaming.getD st.ttsStreaming }

/-- SessionManager.updateState: getSession, then merge the update into
the session's flag record. -/
def smUpdateState (now : Nat) (reg : Reg) (sid : String) (u : StateUpdate) :
    Reg :=
  match getSession now reg sid with
  | (none, r) => r
  | (some s, r) => regUpdate r sid { s with state := applyUpdate s.state u }

/-- One iteration of the loop in SessionManager.listActiveSessions:
for a key whose session is active, collect getSessionStats (which
refreshes the session's lastActivityAt). -/
def visitActive (now : Nat) (acc : List SessionStats × Reg) (sid : String) :
    List SessionStats × Reg :=
  match regFind acc.2 sid with
  | none => acc
  | some s =>
      if s.state.isActive then
        match getSessionStats now acc.2 sid with
        | (some st, r2) => (acc.1 ++ [st], r2)
        | (none, r2) => (acc.1, r2)
      else acc

/-- SessionManager.listActiveSessions: iterate over the registry's keys,
collecting stats of active sessions. -/
def listActiveSessions (now : Nat) (reg : Reg) : List SessionStats × Reg :=
  (reg.map (fun p => p.1)).foldl (visitActive now) ([], reg)

/-- SessionManager.destroySession: getSession (a no-op removal for a
missing id), then delete the registry entry. -/
def destroySession (now : Nat) (reg : Reg) (sid : String) : Reg :=
  match getSession now reg sid with
  | (none, r) => r
  | (some _, r) => regRemove r sid

/-- One tick of the reaper started by startCleanupTimer: destroy every
session whose inactivity (now minus lastActivityAt) exceeds the timeout;
the surviving entries are exactly those within the timeout. -/
def cleanupTick (now timeout : Nat) (reg : Reg) : Reg :=
  reg.filter (fun p => decide (now - p.2.lastActivityAt ≤ timeout))

/-- Observable actions of the orchestrator, in emission order: events
sent to the client over the socket, plus the forwarding of an inbound
audio frame to the STT provider (sttForward), which the barge-in
ordering claim is about. -/
inductive Event where
  | ready
  | transcriptInterim (text : String)
  | transcriptFinal (text : String)
  | llmChunk (chunk : String)
  | agentFinishedSpeaking
  | interruptionProcessed
  | sttForward (frame : Nat)
deriving Repr, DecidableEq

/-- The orchestrator state of one VoiceConversationHandler, projected to
what the claims read. history mirrors the session's conversationHistory
(kept through SessionManager.addMessage with the maxMessages bound);
appended is a trace of the addMessage calls; pending is
pendingLLMResponse; agentSpeaking is isAgentSpeaking; llmStreaming and
ttsStreaming are the session-state flags the orchestrator toggles;
events is the ordered trace of observable actions; subs is the ordered
trace of ttsProvider.synthesize calls as (text, flush) pairs. -/
structure OrchState where
  history : List Message
  appended : List Message
  pending : String
  agentSpeaking : Bool
  llmStreaming : Bool
  ttsStreaming : Bool
  events : List Event
  subs : List (String × Bool)
deriving Repr, DecidableEq

/-- The orchestrator state right after a successful initialize. -/
def initOrch : OrchState :=
  { history := [], appended := [], pending := ""
    agentSpeaking := false, llmStreaming := false, ttsStreaming := false
    events := [], subs := [] }

/-- sessionManager.addMessage as invoked by the orchestrator on its own
session, together with the ghost log of appended messages. -/
def orchAddMessage (maxMessages now : Nat) (st : OrchState)
    (role content : String) : OrchState :=
  let m : Message := ⟨role, content, now⟩
  { st with history := pushBounded maxMessages st.history m
            appended := st.appended ++ [m] }

/-- sendEvent: append one event frame to the client-bound trace. -/
def sendEvent (st : OrchState) (e : Event) : OrchState :=
  { st with events := st.events ++ [e] }

/-- synthesizeSentence(text, flush): ignore empty (all-whitespace) text;
otherwise set isAgentSpeaking, set ttsStreaming, call
ttsProvider.synthesize(text, flush), and clear ttsStreaming again when
flush is true. -/
def synthesizeSentence (st : OrchState) (text : String) (flush : Bool) :
    OrchState :=
  if jsTrim text = "" then st
  else
    let st2 := { st with agentSpeaking := true, ttsStreaming := true
                         subs := st.subs ++ [(text, flush)] }
    if flush then { st2 with ttsStreaming := false } else st2

/-- handleUserInterruption: cancel TTS and LLM, clear the playback
buffer, reset isAgentSpeaking and pendingLLMResponse, clear the
llmStreaming and ttsStreaming flags, and emit interruption_processed. -/
def handleUserInterruption (st : OrchState) : OrchState :=
  { st with agentSpeaking := false, pending := ""
            llmStreaming := false, ttsStreaming := false
            events := st.events ++ [Event.interruptionProcessed] }

/-- handleIncomingAudio: when the agent is speaking, run the barge-in
procedure first; then forward the frame to the STT provider. -/
def handleIncomingAudio (st : OrchState) (frame : Nat) : OrchState :=
  let st1 := if st.agentSpeaking then handleUserInterruption st else st
  { st1 with events := st1.events ++ [Event.sttForward frame] }

/-- The loop state of the reply procedure: the orchestrator state plus
the local rolling sentence accumulator (accumulatedText). -/
structure ReplyAcc where
  st : OrchState
  accum : String
deriving Repr, DecidableEq

/-- The sentence delimiters of the reply procedure. -/
def sentenceDelimiters : List Char := ['.', '!', '?', '\n']

/-- Whether the last character of the accumulator is a delimiter
(an empty accumulator has none). -/
def lastCharIsDelim (s : String) : Bool :=
  match s.toList.getLast? with
  | some c => sentenceDelimiters.contains c
  | none => false

/-- The body of the for-await loop of processUserMessage for one LLM
fragment: extend the accumulator and pendingLLMResponse, emit llm_chunk,
and on a trailing delimiter submit the trimmed sentence with flush=false
and reset the accumulator. -/
def processFragment (r : ReplyAcc) (chunk : String) : ReplyAcc :=
  let accum := r.accum ++ chunk
  let st := { r.st with pending := r.st.pending ++ chunk }
  let st := sendEvent st (Event.llmChunk chunk)
  if lastCharIsDelim accum then
    { st := synthesizeSentence st (jsTrim accum) false, accum := "" }
  else
    { st := st, accum := accum }

/-- The code after the loop of processUserMessage: submit a non-empty
residual accumulator with flush=true, append the assistant turn carrying
pendingLLMResponse to the history, and clear llmStreaming. -/
def finishReply (maxMessages now : Nat) (r : ReplyAcc) : OrchState :=
  let st := if jsTrim r.accum = "" then r.st
            else synthesizeSentence r.st (jsTrim r.accum) true
  let st := orchAddMessage maxMessages now st "assistant" st.pending
  { st with llmStreaming := false }

/-- processUserMessage(userText) consuming the lazy LLM fragment
sequence frags. intr = some k injects the barge-in procedure after the
first k fragments (the user interrupts while the reply is streaming; per
the LLM contract, cancel ends the fragment sequence cleanly, so the
remaining fragments are never delivered and the loop falls through to
finishReply). intr = none is the uninterrupted run. -/
def processUserMessage (maxMessages now : Nat) (st : OrchState)
    (userText : String) (frags : List String) (intr : Option Nat) :
    OrchState :=
  if userText = "" then st
  else
    let st := orchAddMessage maxMessages now st "user" userText
    let st := { st with llmStreaming := true, pending := "" }
    match intr with
    | none => finishReply maxMessages now (frags.foldl processFragment ⟨st, ""⟩)
    | some k =>
        let r := (frags.take k).foldl processFragment ⟨st, ""⟩
        finishReply maxMessages now ⟨handleUserInterruption r.st, r.accum⟩

/-- handleTranscript: interim transcripts are forwarded as
transcript_partial events and nothing else happens; a final transcript
is forwarded as transcript_final and then the reply procedure runs on
the trimmed accumulated text (currentTranscript is empty before each
final transcript and reset right after, so the processed text is the
transcript plus one space, trimmed). -/
def handleTranscript (maxMessages now : Nat) (st : OrchState)
    (text : String) (isFinal : Bool) (frags : List String)
    (intr : Option Nat) : OrchState :=
  if isFinal then
    let st := sendEvent st (Event.transcriptFinal text)
    processUserMessage maxMessages now st (jsTrim (text ++ " ")) frags intr
  else sendEvent st (Event.transcriptInterim text)

/-- The externally driven steps of one session's orchestrator: an
inbound binary audio frame, a transcript callback from STT (a final
transcript carries the LLM fragments of the triggered reply and the
optional barge-in point), and the TTS on_complete callback. -/
inductive Act where
  | audioFrame (frame : Nat)
  | interimTranscript (text : String)
  | finalTranscript (text : String) (frags : List String) (intr : Option Nat)
  | ttsComplete
deriving Repr

/-- Dispatch one step (the callback wiring of initialize: on_transcript
to handleTranscript, socket binary frames to handleIncomingAudio, and
TTS on_complete clearing isAgentSpeaking and emitting
agent_finished_speaking). -/
def step (maxMessages now : Nat) (st : OrchState) : Act → OrchState
  | Act.audioFrame f => handleIncomingAudio st f
  | Act.interimTranscript t => handleTranscript maxMessages now st t false [] none
  | Act.finalTranscript t frags intr =>
      handleTranscript maxMessages now st t true frags intr
  | Act.ttsComplete =>
      sendEvent { st with agentSpeaking := false } Event.agentFinishedSpeaking

/-- Run a list of steps from a given orchestrator state. -/
def runFrom (maxMessages now : Nat) (st : OrchState) (acts : List Act) :
    OrchState :=
  acts.foldl (step maxMessages now) st

/-- Run a list of steps from the post-initialize state. -/
def run (maxMessages now : Nat) (acts : List Act) : OrchState :=
  runFrom maxMessages now initOrch acts

/-- The flag relation that actually holds between isAgentSpeaking and
the session's ttsStreaming flag: whenever the agent is speaking, either
ttsStreaming is still set, or the most recent TTS submission was a
flush=true submission (whose completion of synthesizeSentence cleared
ttsStreaming while isAgentSpeaking stays set until the TTS on_complete
callback or a barge-in). -/
def speakConsistent (st : OrchState) : Prop :=
  st.agentSpeaking = true →
    st.ttsStreaming = true ∨ (st.subs.getLast?).map Prod.snd = some true

/-- Frames the ElevenLabs TTS adapter sends on its upstream socket:
the beginning-of-stream settings frame, a synthesize text frame with its
try_trigger_generation flag, the flush frame sent by cancel (a single
space with flush set), and the end-of-stream frame sent by disconnect. -/
inductive TTSFrame where
  | bos
  | textFrame (text : String) (tryTrigger : Bool)
  | flushFrame (text : String)
  | eos
deriving Repr, DecidableEq

/-- Messages arriving on the ElevenLabs socket: a JSON envelope carrying
base64 audio, the isFinal completion envelope, or a raw binary audio
frame (chunks are opaque Nat tokens). -/
inductive TTSIncoming where
  | audioMsg (chunk : Nat)
  | finalMsg
  | binaryMsg (chunk : Nat)
deriving Repr, DecidableEq

/-- State of the ElevenLabsTTS adapter: the connection flag (isReady and
socket open combined), the isCancelled flag, the trace of frames sent
upstream, the chunks delivered to the registered on_audio_chunk
callback, and the number of on_complete invocations. -/
structure TTSState where
  connected : Bool
  isCancelled : Bool
  sent : List TTSFrame
  delivered : List Nat
  completions : Nat
deriving Repr, DecidableEq

/-- Constructor state of ElevenLabsTTS. -/
def ttsInit : TTSState :=
  { connected := false, isCancelled := false, sent := [], delivered := []
    completions := 0 }

/-- The socket open handler of connect: send the beginning-of-stream
frame, mark ready, clear isCancelled. -/
def ttsOpen (s : TTSState) : TTSState :=
  { s with connected := true, isCancelled := false, sent := s.sent ++ [TTSFrame.bos] }

/-- synthesize(text, flush): reject when not connected; ignore empty
(all-whitespace) text; otherwise clear isCancelled and send the text
frame with try_trigger_generation = flush. -/
def ttsSynthesize (s : TTSState) (text : String) (flush : Bool) :
    Except String TTSState :=
  if s.connected = false then Except.error "ElevenLabs no esta conectado"
  else if jsTrim text = "" then Except.ok s
  else Except.ok
    { s with isCancelled := false
             sent := s.sent ++ [TTSFrame.textFrame text flush] }

/-- cancel(): when connected, send the single-space flush frame. The
source does not modify isCancelled here. -/
def ttsCancel (s : TTSState) : TTSState :=
  if s.connected then { s with sent := s.sent ++ [TTSFrame.flushFrame " "] }
  else s

/-- The socket message handler of connect: every JSON message is dropped
while isCancelled is set; otherwise an audio envelope is delivered to the
audio callback and an isFinal envelope clears isCancelled and fires the
complete callback. A raw binary frame is likewise dropped while
isCancelled is set and delivered otherwise. -/
def ttsOnMessage (s : TTSState) (m : TTSIncoming) : TTSState :=
  match m with
  | TTSIncoming.audioMsg c =>
      if s.isCancelled then s else { s with delivered := s.delivered ++ [c] }
  | TTSIncoming.finalMsg =>
      if s.isCancelled then s
      else { s with isCancelled := false, completions := s.completions + 1 }
  | TTSIncoming.binaryMsg c =>
      if s.isCancelled then s else { s with delivered := s.delivered ++ [c] }

/-- The post-cancel scenario of the TTS cancellation contract: connect,
synthesize a sentence, cancel, then an audio chunk from the synthesis
work submitted before the cancel arrives from upstream. -/
def ttsAfterCancelScenario : TTSState :=
  match ttsSynthesize (ttsOpen ttsInit) "Hola." false with
  | Except.ok s => ttsOnMessage (ttsCancel s) (TTSIncoming.audioMsg 7)
  | Except.error _ => ttsInit

/-- One alternative inside a Deepgram Transcript event (the transcript
text and its confidence; confidence is an opaque Nat). -/
structure DGAlternative where
  transcriptText : String
  confidence : Nat
deriving Repr, DecidableEq

/-- The Transcript-event handler of the Deepgram adapter: take the first
alternative, trim its text, drop the event entirely when there is no
alternative or the trimmed text is empty, and otherwise invoke the
transcript callback with (text, is_final, confidence). The returned
option is the callback invocation, none meaning no event at all. -/
def deepgramTranscriptEvent (alts : List DGAlternative) (isFinal : Bool) :
    Option (String × Bool × Nat) :=
  match alts.head? with
  | none => none
  | some alt =>
      let text := jsTrim alt.transcriptText
      if text = "" then none else some (text, isFinal, alt.confidence)

/-- The tail of GroqSTT.transcribeChunk after the upstream transcription
returns: trim the text, drop the result entirely when empty, and
otherwise invoke the transcript callback with is_final = true and
confidence 1 (the source's 1.0). -/
def groqTranscriptEvent (responseText : String) : Option (String × Bool × Nat) :=
  let text := jsTrim responseText
  if text = "" then none else some (text, true, 1)

/-- The junk phrase of the configured junk-phrase list that the legacy
handler filters. -/
def junkPhrase : String := "Subtítulos realizados por la comunidad de Amara.org"

/-- What the upstream LLM stream produces at each point: a chunk whose
delta may or may not carry content, or a thrown error carrying its name
(the AbortError raised when cancel aborts the request, or any other
failure). A stream that ends without a throw simply exhausts the list. -/
inductive LLMUpstream where
  | piece (content : Option String)
  | raiseErr (name : String) (msg : String)
deriving Repr, DecidableEq

/-- Whether an upstream item is an ordinary chunk. -/
def isPiece : LLMUpstream → Bool
  | LLMUpstream.piece _ => true
  | LLMUpstream.raiseErr _ _ => false

/-- The observable outcome of one streamResponse call: the fragments
yielded to the consumer, whether the registered error callback was
invoked, and whether the error was re-thrown to the consumer. -/
structure LLMOutcome where
  fragments : List String
  errorCallbackInvoked : Bool
  threw : Bool
deriving Repr, DecidableEq

/-- OpenAILLM.streamResponse as a consumer of the upstream stream: yield
every non-empty delta content; when the upstream throws, an AbortError is
swallowed (clean end of the generator, nothing else runs), while any
other error invokes the error callback and is re-thrown. -/
def consumeStream : List LLMUpstream → List String → LLMOutcome
  | [], acc => ⟨acc, false, false⟩
  | LLMUpstream.piece c :: rest, acc =>
      match c with
      | some t => if t = "" then consumeStream rest acc
                  else consumeStream rest (acc ++ [t])
      | none => consumeStream rest acc
  | LLMUpstream.raiseErr n _ :: _, acc =>
      if n = "AbortError" then ⟨acc, false, false⟩ else ⟨acc, true, true⟩

/-- Frames the wire edge sends back to the client: typed event frames,
typed error frames, and binary audio. -/
inductive ServerFrame where
  | eventFrame (name : String)
  | errorFrame (kind : String)
  | audioData (b : Nat)
deriving Repr, DecidableEq

/-- Whether a server frame is an error frame (type "error"). -/
def isErrorFrame : ServerFrame → Bool
  | ServerFrame.errorFrame _ => true
  | _ => false

/-- Frames a client sends on the socket. -/
inductive CFrame where
  | initF (clientName : String)
  | metaF (clientName : String)
  | audioF (b : Nat)
deriving Repr, DecidableEq

/-- State of one connection at the wire edge: whether a handler has been
created, the session registry, and the frames sent to the client. -/
structure WireState where
  handlerExists : Bool
  sessions : Reg
  responses : List ServerFrame
deriving Repr, DecidableEq

/-- The session record as it stands right after a successful
VoiceConversationHandler.initialize: created fresh, then updateState
marks sttConnected, ttsConnected and isActive (each updateState call also
refreshes lastActivityAt, with the same clock reading). -/
def initializedSession (now : Nat) (clientName : String) : Session :=
  { freshSession now clientName with
      state := { isActive := true, sttConnected := true, ttsConnected := true
                 llmStreaming := false, ttsStreaming := false } }

/-- The init branch of the socket message handler plus initialize on the
nominal path (both provider connects succeed): a new handler replaces any
previous one, createSession overwrites the registry entry for this
connection's id, the connection flags are set, and the ready event is
sent. The source never checks whether a handler already exists. -/
def wsHandleInit (now : Nat) (w : WireState) (sid clientName : String) :
    WireState :=
  { handlerExists := true
    sessions := regSet w.sessions sid (initializedSession now clientName)
    responses := w.responses ++ [ServerFrame.eventFrame "ready"] }

/-- The socket message handler of initWebSocketServer on the nominal
path: init creates and initializes a handler; metadata frames and binary
audio are ignored until a handler exists. -/
def wsHandleMessage (now : Nat) (sid : String) (w : WireState) :
    CFrame → WireState
  | CFrame.initF cn => wsHandleInit now w sid cn
  | CFrame.metaF _ => w
  | CFrame.audioF _ => w

/-- Process a list of client frames on a fresh connection. -/
def wsRun (now : Nat) (sid : String) (frames : List CFrame) : WireState :=
  frames.foldl (wsHandleMessage now sid) ⟨false, [], []⟩

/-- Modelled from the spec: the reply procedure of section 4.5 in the
spec's own words, as one step of a fold over the LLM fragments. The
state is the list of TTS submissions so far and the rolling accumulator;
when the last character of the accumulator after appending the fragment
is a sentence delimiter, the accumulated sentence (trimmed, as in the
scenario of section 8) is submitted with flush=false and the accumulator
is reset; a sentence that trims to nothing is no submission at all,
matching the TTS contract under which empty text is ignored. -/
def specReplyStep (p : List (String × Bool) × String) (chunk : String) :
    List (String × Bool) × String :=
  let acc := p.2 ++ chunk
  if lastCharIsDelim acc then
    (if jsTrim acc = "" then p.1 else p.1 ++ [(jsTrim acc, false)], "")
  else (p.1, acc)

/-- Modelled from the spec: the full TTS submission sequence of one
uninterrupted reply per section 4.5 — the delimiter-bounded sentences
with flush=false, then any residual non-empty accumulator text with
flush=true when the LLM stream ends. -/
def specSentences (frags : List String) : List (String × Bool) :=
  let p := frags.foldl specReplyStep ([], "")
  if jsTrim p.2 = "" then p.1 else p.1 ++ [(jsTrim p.2, true)]

/-! Helper lemmas about the trim model. -/

theorem dropWhile_idem (p : Char → Bool) (l : List Char) :
    (l.dropWhile p).dropWhile p = l.dropWhile p := by
  induction l with
  | nil => rfl
  | cons a t ih =>
      by_cases h : p a = true
      · simp only [List.dropWhile_cons, h, if_true]
        exact ih
      · simp only [List.dropWhile_cons, h, if_false]
        simp only [Bool.not_eq_true] at h
        simp [List.dropWhile_cons, h]

theorem head_not_of_dropWhile_eq_self (p : Char → Bool) (a : Char)
    (l : List Char) (h : List.dropWhile p (a :: l) = a :: l) :
    p a = false := by
  by_cases hp : p a = true
  · simp only [List.dropWhile_cons, hp, if_true] at h
    have hlen := congrArg List.length h
    have hle : (List.dropWhile p l).length ≤ l.length :=
      (List.dropWhile_sublist p).length_le
    simp at hlen
    omega
  · simpa using hp

theorem dropWhile_of_prefix_eq_self (p : Char → Bool) (pfx t l : List Char)
    (hl : l.dropWhile p = l) (hdec : l = pfx ++ t) :
    pfx.dropWhile p = pfx := by
  cases pfx with
  | nil => rfl
  | cons a q =>
      have : List.dropWhile p (a :: (q ++ t)) = a :: (q ++ t) := by
        rw [hdec] at hl
        simpa using hl
      have ha := head_not_of_dropWhile_eq_self p a (q ++ t) this
      simp [List.dropWhile_cons, ha]

theorem dropTrailingWS_idem (l : List Char) :
    dropTrailingWS (dropTrailingWS l) = dropTrailingWS l := by
  unfold dropTrailingWS
  rw [List.reverse_reverse, dropWhile_idem]

theorem dropTrailingWS_decomp (l : List Char) :
    ∃ t, l = dropTrailingWS l ++ t := by
  refine ⟨(l.reverse.takeWhile isWS).reverse, ?_⟩
  unfold dropTrailingWS
  have h : l.reverse.takeWhile isWS ++ l.reverse.dropWhile isWS = l.reverse :=
    List.takeWhile_append_dropWhile isWS l.reverse
  calc l = l.reverse.reverse := (List.reverse_reverse l).symm
    _ = (l.reverse.takeWhile isWS ++ l.reverse.dropWhile isWS).reverse := by
          rw [h]
    _ = (l.reverse.dropWhile isWS).reverse ++ (l.reverse.takeWhile isWS).reverse := by
          rw [List.reverse_append]

theorem jsTrimList_idem (l : List Char) :
    jsTrimList (jsTrimList l) = jsTrimList l := by
  unfold jsTrimList
  set m := l.dropWhile isWS with hm
  have hmfix : m.dropWhile isWS = m := by rw [hm]; exact dropWhile_idem isWS l
  obtain ⟨t, ht⟩ := dropTrailingWS_decomp m
  have hpre : (dropTrailingWS m).dropWhile isWS = dropTrailingWS m :=
    dropWhile_of_prefix_eq_self isWS (dropTrailingWS m) t m hmfix ht
  rw [hpre, dropTrailingWS_idem]

theorem toList_mk (l : List Char) : String.toList ⟨l⟩ = l := rfl

theorem jsTrim_idem (s : String) : jsTrim (jsTrim s) = jsTrim s := by
  unfold jsTrim
  rw [toList_mk, jsTrimList_idem]

theorem jsTrim_empty : jsTrim "" = "" := rfl

/-! Helper lemmas about the bounded history and the registry. -/

theorem pushBounded_length_le (maxMessages : Nat) (hpos : 0 < maxMessages)
    (hist : List Message) (m : Message) :
    (pushBounded maxMessages hist m).length ≤ maxMessages := by
  unfold pushBounded sliceLast
  by_cases h : maxMessages < (hist ++ [m]).length
  · simp only [h, if_true]
    have hz : ¬ maxMessages = 0 := by omega
    simp only [hz, if_false, List.length_drop]
    omega
  · simp only [h, if_false]
    omega

theorem regFind_regUpdate_self (reg : Reg) (sid : String) (v : Session) :
    regFind (regUpdate reg sid v) sid = (regFind reg sid).map (fun _ => v) := by
  induction reg with
  | nil => rfl
  | cons p rest ih =>
      obtain ⟨k, s⟩ := p
      by_cases hk : k = sid
      · subst hk
        simp [regUpdate, regFind]
      · simp [regUpdate, regFind, hk, ih]

theorem regFind_regUpdate_other (reg : Reg) (k sid : String) (v : Session)
    (hk : k ≠ sid) :
    regFind (regUpdate reg k v) sid = regFind reg sid := by
  induction reg with
  | nil => rfl
  | cons p rest ih =>
      obtain ⟨k2, s⟩ := p
      by_cases h2 : k2 = k
      · subst h2
        simp [regUpdate, regFind, hk, ih]
      · simp [regUpdate, regFind, h2, ih]

theorem regFind_filter (p : String × Session → Bool) (reg : Reg)
    (sid : String) (v : Session) (h : regFind reg sid = some v)
    (hp : p (sid, v) = true) :
    regFind (reg.filter p) sid = some v := by
  induction reg with
  | nil => simp [regFind] at h
  | cons q rest ih =>
      obtain ⟨k, s⟩ := q
      by_cases hk : k = sid
      · subst hk
        simp only [regFind, if_pos rfl] at h
        obtain rfl : s = v := by injection h
        simp [List.filter, hp, regFind]
      · simp only [regFind, if_neg hk] at h
        cases hq : p (k, s)
        · simp [List.filter, hq, ih h]
        · simp [List.filter, hq, regFind, hk, ih h]

theorem visitActive_other (now : Nat) (acc : List SessionStats) (r : Reg)
    (k sid : String) (hk : k ≠ sid) :
    regFind (visitActive now (acc, r) k).2 sid = regFind r sid := by
  unfold visitActive
  cases hrk : regFind r k with
  | none => rfl
  | some s =>
      by_cases hs : s.state.isActive = true
      · simp only [hs, if_true, getSessionStats, getSession, hrk]
        exact regFind_regUpdate_other r k sid _ hk
      · simp only [Bool.not_eq_true] at hs
        simp [hs]

theorem visitActive_self (now : Nat) (acc : List SessionStats) (r : Reg)
    (sid : String) (v : Session) (hfind : regFind r sid = some v)
    (hact : v.state.isActive = true) :
    (visitActive now (acc, r) sid).2
      = regUpdate r sid { v with lastActivityAt := now } := by
  unfold visitActive
  simp only [hfind, hact, if_true, getSessionStats, getSession]

theorem listActive_fold_refreshes (now : Nat) (sid : String) :
    ∀ (ks : List String) (acc : List SessionStats) (r : Reg) (v : Session),
      regFind r sid = some v → v.state.isActive = true →
      (sid ∈ ks →
        regFind (ks.foldl (visitActive now) (acc, r)).2 sid
          = some { v with lastActivityAt := now }) ∧
      (sid ∉ ks →
        regFind (ks.foldl (visitActive now) (acc, r)).2 sid = some v) := by
  intro ks
  induction ks with
  | nil =>
      intro acc r v hfind hact
      exact ⟨fun h => absurd h (List.not_mem_nil sid), fun _ => hfind⟩
  | cons k ks ih =>
      intro acc r v hfind hact
      by_cases hk : k = sid
      · subst hk
        have hsnd := visitActive_self now acc r k v hfind hact
        have hfind1 :
            regFind (visitActive now (acc, r) k).2 k
              = some { v with lastActivityAt := now } := by
          rw [hsnd, regFind_regUpdate_self, hfind]
          rfl
        have ih2 := ih (visitActive now (acc, r) k).1
          (visitActive now (acc, r) k).2 { v with lastActivityAt := now }
          hfind1 hact
        constructor
        · intro _
          simp only [List.foldl_cons]
          by_cases hmem : k ∈ ks
          · exact ih2.1 hmem
          · exact ih2.2 hmem
        · intro hnot
          exact absurd (List.mem_cons_self k ks) hnot
      · have hfind1 :
            regFind (visitActive now (acc, r) k).2 sid = some v := by
          rw [visitActive_other now acc r k sid hk]
          exact hfind
        have ih2 := ih (visitActive now (acc, r) k).1
          (visitActive now (acc, r) k).2 v hfind1 hact
        constructor
        · intro hmem
          rcases List.mem_cons.mp hmem with h1 | h2
          · exact absurd h1.symm hk
          · simpa using ih2.1 h2
        · intro hnot
          have : sid ∉ ks := fun h => hnot (List.mem_cons_of_mem k h)
          simpa using ih2.2 this

theorem regFind_mem_keys (reg : Reg) (sid : String) (v : Session)
    (h : regFind reg sid = some v) : sid ∈ reg.map (fun p => p.1) := by
  induction reg with
  | nil => simp [regFind] at h
  | cons q rest ih =>
      obtain ⟨k, s⟩ := q
      by_cases hk : k = sid
      · subst hk
        simp
      · simp only [regFind, if_neg hk] at h
        simpa using Or.inr (ih h)

/-! Claim C5. -/

/-- C5: for every session at every moment (every history reachable by
SessionManager.addMessage from the empty history of createSession, for a
positive configured bound, default 15), the history length stays at most
maxMessages; and appending to a history already at maxMessages drops the
oldest entry and keeps the length at maxMessages, never dropping the
newest entry. -/
theorem history_bounded_and_drops_oldest (maxMessages : Nat)
    (hpos : 0 < maxMessages) :
    (∀ hist m, hist.length ≤ maxMessages →
      (pushBounded maxMessages hist m).length ≤ maxMessages) ∧
    (∀ msgs : List Message,
      (msgs.foldl (pushBounded maxMessages) []).length ≤ maxMessages) ∧
    (∀ hist (m : Message), hist.length = maxMessages →
      pushBounded maxMessages hist m = hist.tail ++ [m] ∧
      (hist.tail ++ [m]).length = maxMessages) := by
  have step : ∀ hist (m : Message), hist.length ≤ maxMessages →
      (pushBounded maxMessages hist m).length ≤ maxMessages :=
    fun hist m _ => pushBounded_length_le maxMessages hpos hist m
  refine ⟨step, ?_, ?_⟩
  · intro msgs
    have general : ∀ (l : List Message) (acc : List Message),
        acc.length ≤ maxMessages →
        (l.foldl (pushBounded maxMessages) acc).length ≤ maxMessages := by
      intro l
      induction l with
      | nil => intro acc h; simpa using h
      | cons m rest ih =>
          intro acc h
          exact ih (pushBounded maxMessages acc m) (step acc m h)
    exact general msgs [] (by simp)
  · intro hist m hlen
    have hgt : maxMessages < (hist ++ [m]).length := by
      simp [hlen]
    have hz : ¬ maxMessages = 0 := by omega
    have hcons : hist ≠ [] := by
      intro h
      rw [h] at hlen
      simp at hlen
      omega
    have hdrop : (hist ++ [m]).drop 1 = hist.tail ++ [m] := by
      cases hist with
      | nil => exact absurd rfl hcons
      | cons a t => simp
    constructor
    · unfold pushBounded sliceLast
      simp only [hgt, if_true, hz, if_false]
      have : (hist ++ [m]).length - maxMessages = 1 := by
        simp [hlen]
      rw [this, hdrop]
    · have : hist.tail.length = maxMessages - 1 := by
        simp [hlen]
      simp [this]
      omega

/-- Witness for C5 at the bound 2: a history at capacity, appended,
drops its oldest entry and keeps the newest. -/
theorem history_bounded_and_drops_oldest_witness :
    pushBounded 2 [⟨"user", "a", 0⟩, ⟨"assistant", "b", 1⟩] ⟨"user", "c", 2⟩
      = [⟨"assistant", "b", 1⟩, ⟨"user", "c", 2⟩] :=
  ((history_bounded_and_drops_oldest 2 (by decide)).2.2
    [⟨"user", "a", 0⟩, ⟨"assistant", "b", 1⟩] ⟨"user", "c", 2⟩ (by decide)).1

/-! Claim C10. -/

/-- C10: every registry lookup of an existing session through getSession
updates that session's lastActivityAt to the current time — in
particular getFormattedHistory, getSessionStats, getProviders,
updateState, and (for the sessions it lists) listActiveSessions — so a
read at time now postpones the reaper, which only destroys sessions
whose inactivity exceeds the timeout; lookups of a non-existent session
id leave the registry unchanged. -/
theorem registry_reads_refresh_lastActivity
    (now t timeout : Nat) (reg : Reg) (sid : String) (u : StateUpdate) :
    (∀ s, regFind reg sid = some s →
      regFind (getFormattedHistory now reg sid).2 sid
          = some { s with lastActivityAt := now } ∧
      regFind (getSessionStats now reg sid).2 sid
          = some { s with lastActivityAt := now } ∧
      regFind (getProviders now reg sid).2 sid
          = some { s with lastActivityAt := now } ∧
      (regFind (smUpdateState now reg sid u) sid).map Session.lastActivityAt
          = some now ∧
      (s.state.isActive = true →
        regFind (listActiveSessions now reg).2 sid
            = some { s with lastActivityAt := now }) ∧
      (t ≤ now + timeout →
        regFind (cleanupTick t timeout (getFormattedHistory now reg sid).2) sid
            = some { s with lastActivityAt := now })) ∧
    (regFind reg sid = none →
      (getFormattedHistory now reg sid).2 = reg ∧
      (getSessionStats now reg sid).2 = reg ∧
      (getProviders now reg sid).2 = reg ∧
      smUpdateState now reg sid u = reg) := by
  constructor
  · intro s hfind
    have hupd : regFind (regUpdate reg sid { s with lastActivityAt := now }) sid
        = some { s with lastActivityAt := now } := by
      rw [regFind_regUpdate_self, hfind]
      rfl
    have hreg2 : (getFormattedHistory now reg sid).2
        = regUpdate reg sid { s with lastActivityAt := now } := by
      simp [getFormattedHistory, getSession, hfind]
    refine ⟨?_, ?_, ?_, ?_, ?_, ?_⟩
    · rw [hreg2]; exact hupd
    · simp only [getSessionStats, getSession, hfind]
      exact hupd
    · simp only [getProviders, getSession, hfind]
      exact hupd
    · simp only [smUpdateState, getSession, hfind]
      rw [regFind_regUpdate_self, regFind_regUpdate_self, hfind]
      rfl
    · intro hact
      unfold listActiveSessions
      have hmem : sid ∈ reg.map (fun p => p.1) :=
        regFind_mem_keys reg sid s hfind
      exact (listActive_fold_refreshes now sid (reg.map (fun p => p.1))
        [] reg s hfind hact).1 hmem
    · intro ht
      rw [hreg2]
      apply regFind_filter _ _ _ _ hupd
      simp only [decide_eq_true_eq]
      omega
  · intro hnone
    refine ⟨?_, ?_, ?_, ?_⟩ <;>
      simp [getFormattedHistory, getSessionStats, getProviders,
        smUpdateState, getSession, hnone]

/-- Witness for C10: a one-session registry read through
getFormattedHistory at time 5 comes out with lastActivityAt 5. -/
theorem registry_reads_refresh_lastActivity_witness :
    regFind (getFormattedHistory 5
        [("a", (⟨0, 0, "Ana", [], ⟨true, true, true, false, false⟩, []⟩ : Session))]
        "a").2 "a"
      = some (⟨0, 5, "Ana", [], ⟨true, true, true, false, false⟩, []⟩ : Session) :=
  ((registry_reads_refresh_lastActivity 5 10 100
      [("a", ⟨0, 0, "Ana", [], ⟨true, true, true, false, false⟩, []⟩)] "a"
      ⟨none, none, none, none, none⟩).1
    ⟨0, 0, "Ana", [], ⟨true, true, true, false, false⟩, []⟩ rfl).1

/-! Claim C9. -/

/-- C9 counterexample: on a connection where the client sends init
twice, the server does not respond with an error frame at all — it
responds with a second ready event (the claim asserts a well-formed
error frame of type "error" is sent). -/
theorem second_init_counterexample :
    (wsRun 0 "s1" [CFrame.initF "Ana", CFrame.initF "Ana"]).responses
      = [ServerFrame.eventFrame "ready", ServerFrame.eventFrame "ready"] ∧
    ((wsRun 0 "s1" [CFrame.initF "Ana", CFrame.initF "Ana"]).responses.filter
        isErrorFrame) = [] := by
  constructor <;> rfl

/-- C9 as amended: a second init frame after a successful first init
does not crash or tear down the process — the message handler simply
creates a fresh handler, overwrites the registry entry with a freshly
initialized session, and responds with a second ready event; no error
frame is emitted. -/
theorem second_init_reinitializes (now : Nat) (sid cn1 cn2 : String) :
    (wsRun now sid [CFrame.initF cn1, CFrame.initF cn2]).responses
      = [ServerFrame.eventFrame "ready", ServerFrame.eventFrame "ready"] ∧
    ((wsRun now sid [CFrame.initF cn1, CFrame.initF cn2]).responses.filter
        isErrorFrame) = [] ∧
    regFind (wsRun now sid [CFrame.initF cn1, CFrame.initF cn2]).sessions sid
      = some (initializedSession now cn2) := by
  refine ⟨rfl, rfl, ?_⟩
  simp [wsRun, wsHandleMessage, wsHandleInit, regSet, regFind, regUpdate]

/-! Helper lemmas about the orchestrator model. -/

theorem synthesizeSentence_ghost (st : OrchState) (t : String) (f : Bool) :
    (synthesizeSentence st t f).appended = st.appended ∧
    (synthesizeSentence st t f).history = st.history ∧
    (synthesizeSentence st t f).pending = st.pending ∧
    (synthesizeSentence st t f).events = st.events := by
  unfold synthesizeSentence
  by_cases hz : jsTrim t = ""
  · simp [hz]
  · by_cases hf : f <;> simp [hz, hf]

theorem processFragment_ghost (r : ReplyAcc) (c : String) :
    (processFragment r c).st.appended = r.st.appended ∧
    (processFragment r c).st.history = r.st.history ∧
    (processFragment r c).st.pending = r.st.pending ++ c := by
  unfold processFragment
  by_cases hd : lastCharIsDelim (r.accum ++ c) = true
  · simp only [hd, if_true]
    obtain ⟨h1, h2, h3, _⟩ := synthesizeSentence_ghost
      (sendEvent { r.st with pending := r.st.pending ++ c } (Event.llmChunk c))
      (jsTrim (r.accum ++ c)) false
    exact ⟨h1, h2, h3⟩
  · simp only [hd, if_false]
    exact ⟨rfl, rfl, rfl⟩

theorem foldPF_ghost (l : List String) : ∀ (r : ReplyAcc),
    (l.foldl processFragment r).st.appended = r.st.appended ∧
    (l.foldl processFragment r).st.history = r.st.history ∧
    (l.foldl processFragment r).st.pending
      = l.foldl (fun s c => s ++ c) r.st.pending := by
  induction l with
  | nil => intro r; exact ⟨rfl, rfl, rfl⟩
  | cons c l ih =>
      intro r
      obtain ⟨h1, h2, h3⟩ := processFragment_ghost r c
      obtain ⟨ih1, ih2, ih3⟩ := ih (processFragment r c)
      refine ⟨by rw [List.foldl_cons, ih1, h1],
              by rw [List.foldl_cons, ih2, h2], ?_⟩
      rw [List.foldl_cons, ih3, h3]
      rfl

theorem specReplyStep_factor (S : List (String × Bool)) (a c : String) :
    specReplyStep (S, a) c
      = (S ++ (specReplyStep ([], a) c).1, (specReplyStep ([], a) c).2) := by
  unfold specReplyStep
  by_cases h : lastCharIsDelim (a ++ c) = true
  · by_cases hz : jsTrim (a ++ c) = "" <;> simp [h, hz]
  · simp [h]

theorem specFold_factor (l : List String) : ∀ (S : List (String × Bool)) (a : String),
    l.foldl specReplyStep (S, a)
      = (S ++ (l.foldl specReplyStep ([], a)).1,
         (l.foldl specReplyStep ([], a)).2) := by
  induction l with
  | nil => intro S a; simp
  | cons c l ih =>
      intro S a
      simp only [List.foldl_cons]
      rw [specReplyStep_factor S a c,
          ← @Prod.mk.eta _ _ (specReplyStep ([], a) c),
          ih (S ++ (specReplyStep ([], a) c).1) (specReplyStep ([], a) c).2,
          ih (specReplyStep ([], a) c).1 (specReplyStep ([], a) c).2,
          List.append_assoc]

theorem processFragment_subs (r : ReplyAcc) (c : String) :
    (processFragment r c).st.subs
      = r.st.subs ++ (specReplyStep ([], r.accum) c).1 ∧
    (processFragment r c).accum = (specReplyStep ([], r.accum) c).2 := by
  unfold processFragment specReplyStep
  by_cases hd : lastCharIsDelim (r.accum ++ c) = true
  · by_cases hz : jsTrim (r.accum ++ c) = ""
    · simp [hd, hz, synthesizeSentence, sendEvent, jsTrim_idem, jsTrim_empty]
    · simp [hd, hz, synthesizeSentence, sendEvent, jsTrim_idem, jsTrim_empty]
  · simp [hd, sendEvent]

theorem foldPF_subs (l : List String) : ∀ (r : ReplyAcc),
    (l.foldl processFragment r).st.subs
      = r.st.subs ++ (l.foldl specReplyStep ([], r.accum)).1 ∧
    (l.foldl processFragment r).accum
      = (l.foldl specReplyStep ([], r.accum)).2 := by
  induction l with
  | nil => intro r; simp
  | cons c l ih =>
      intro r
      obtain ⟨h1, h2⟩ := processFragment_subs r c
      obtain ⟨ih1, ih2⟩ := ih (processFragment r c)
      simp only [List.foldl_cons]
      rw [← @Prod.mk.eta _ _ (specReplyStep ([], r.accum) c),
          specFold_factor l (specReplyStep ([], r.accum) c).1
            (specReplyStep ([], r.accum) c).2]
      constructor
      · rw [ih1, h1, h2, List.append_assoc]
      · rw [ih2, h2]

theorem speakConsistent_fields {st st2 : OrchState}
    (h : speakConsistent st)
    (ha : st2.agentSpeaking = st.agentSpeaking)
    (ht : st2.ttsStreaming = st.ttsStreaming)
    (hs : st2.subs = st.subs) : speakConsistent st2 := by
  intro hsp
  rw [ht, hs]
  exact h (ha ▸ hsp)

theorem speakConsistent_of_notSpeaking {st : OrchState}
    (h : st.agentSpeaking = false) : speakConsistent st := by
  intro hsp
  rw [h] at hsp
  exact absurd hsp (by simp)

theorem speakConsistent_synth (st : OrchState) (t : String) (f : Bool)
    (h : speakConsistent st) : speakConsistent (synthesizeSentence st t f) := by
  unfold synthesizeSentence
  by_cases hz : jsTrim t = ""
  · simpa [hz] using h
  · by_cases hf : f
    · intro _
      right
      simp [hz, hf, List.getLast?_concat]
    · intro _
      left
      simp [hz, hf]

theorem speakConsistent_processFragment (r : ReplyAcc) (c : String)
    (h : speakConsistent r.st) : speakConsistent (processFragment r c).st := by
  unfold processFragment
  by_cases hd : lastCharIsDelim (r.accum ++ c) = true
  · simp only [hd, if_true]
    exact speakConsistent_synth _ _ _ (speakConsistent_fields h rfl rfl rfl)
  · simp only [hd, if_false]
    exact speakConsistent_fields h rfl rfl rfl

theorem speakConsistent_foldPF (l : List String) : ∀ (r : ReplyAcc),
    speakConsistent r.st → speakConsistent (l.foldl processFragment r).st := by
  induction l with
  | nil => intro r h; exact h
  | cons c l ih =>
      intro r h
      exact ih (processFragment r c) (speakConsistent_processFragment r c h)

set_option maxHeartbeats 1000000 in
theorem speakConsistent_finishReply (maxMessages now : Nat) (r : ReplyAcc)
    (h : speakConsistent r.st) :
    speakConsistent (finishReply maxMessages now r) := by
  unfold finishReply
  by_cases hz : jsTrim r.accum = ""
  · rw [if_pos hz]
    exact speakConsistent_fields h rfl rfl rfl
  · rw [if_neg hz]
    have h2 := speakConsistent_synth r.st (jsTrim r.accum) true h
    exact speakConsistent_fields h2 rfl rfl rfl

theorem speakConsistent_processUserMessage (maxMessages now : Nat)
    (st : OrchState) (text : String) (frags : List String) (intr : Option Nat)
    (h : speakConsistent st) :
    speakConsistent (processUserMessage maxMessages now st text frags intr) := by
  unfold processUserMessage
  by_cases hz : text = ""
  · simpa [hz] using h
  · simp only [hz, if_false]
    cases intr with
    | none =>
        apply speakConsistent_finishReply
        apply speakConsistent_foldPF
        exact speakConsistent_fields h rfl rfl rfl
    | some k =>
        apply speakConsistent_finishReply
        exact speakConsistent_of_notSpeaking rfl

theorem speakConsistent_step (maxMessages now : Nat) (st : OrchState) (a : Act)
    (h : speakConsistent st) : speakConsistent (step maxMessages now st a) := by
  cases a with
  | audioFrame f =>
      unfold step handleIncomingAudio
      by_cases hs : st.agentSpeaking = true
      · simp only [hs, if_true]
        apply speakConsistent_fields
          (@speakConsistent_of_notSpeaking (handleUserInterruption st) rfl)
          rfl rfl rfl
      · simp only [hs, if_false]
        exact speakConsistent_fields h rfl rfl rfl
  | interimTranscript t =>
      unfold step handleTranscript
      simp only [Bool.false_eq_true, if_false]
      exact speakConsistent_fields h rfl rfl rfl
  | finalTranscript t frags intr =>
      unfold step handleTranscript
      simp only [if_true]
      apply speakConsistent_processUserMessage
      exact speakConsistent_fields h rfl rfl rfl
  | ttsComplete =>
      unfold step
      exact speakConsistent_of_notSpeaking rfl

theorem speakConsistent_runFrom (maxMessages now : Nat) (acts : List Act) :
    ∀ (st : OrchState), speakConsistent st →
      speakConsistent (runFrom maxMessages now st acts) := by
  induction acts with
  | nil => intro st h; exact h
  | cons a acts ih =>
      intro st h
      exact ih (step maxMessages now st a)
        (speakConsistent_step maxMessages now st a h)

theorem orchAddMessage_fields (maxMessages now : Nat) (st : OrchState)
    (role content : String) :
    (orchAddMessage maxMessages now st role content).appended
        = st.appended ++ [⟨role, content, now⟩] ∧
    (orchAddMessage maxMessages now st role content).history
        = pushBounded maxMessages st.history ⟨role, content, now⟩ ∧
    (orchAddMessage maxMessages now st role content).pending = st.pending ∧
    (orchAddMessage maxMessages now st role content).subs = st.subs :=
  ⟨rfl, rfl, rfl, rfl⟩

theorem clearLLM_fields (st : OrchState) :
    ({ st with llmStreaming := false } : OrchState).appended = st.appended ∧
    ({ st with llmStreaming := false } : OrchState).history = st.history ∧
    ({ st with llmStreaming := false } : OrchState).subs = st.subs :=
  ⟨rfl, rfl, rfl⟩

theorem synthesizeSentence_subs_flush (st : OrchState) (t : String)
    (hz : jsTrim t ≠ "") (f : Bool) :
    (synthesizeSentence st (jsTrim t) f).subs = st.subs ++ [(jsTrim t, f)] := by
  unfold synthesizeSentence
  rw [jsTrim_idem, if_neg hz]
  by_cases hf : f = true
  · rw [if_pos hf]
  · rw [if_neg hf]

theorem finishReply_ghost (maxMessages now : Nat) (r : ReplyAcc) :
    (finishReply maxMessages now r).appended
      = r.st.appended ++ [⟨"assistant", r.st.pending, now⟩] ∧
    (finishReply maxMessages now r).history
      = pushBounded maxMessages r.st.history ⟨"assistant", r.st.pending, now⟩ ∧
    (finishReply maxMessages now r).subs
      = r.st.subs ++
          (if jsTrim r.accum = "" then [] else [(jsTrim r.accum, true)]) := by
  by_cases hz : jsTrim r.accum = ""
  · simp only [finishReply, if_pos hz]
    refine ⟨?_, ?_, ?_⟩
    · rw [(clearLLM_fields _).1, (orchAddMessage_fields _ _ _ _ _).1]
    · rw [(clearLLM_fields _).2.1, (orchAddMessage_fields _ _ _ _ _).2.1]
    · rw [(clearLLM_fields _).2.2, (orchAddMessage_fields _ _ _ _ _).2.2.2,
        List.append_nil]
  · simp only [finishReply, if_neg hz]
    obtain ⟨h1, h2, h3, _⟩ := synthesizeSentence_ghost r.st (jsTrim r.accum) true
    refine ⟨?_, ?_, ?_⟩
    · rw [(clearLLM_fields _).1, (orchAddMessage_fields _ _ _ _ _).1, h1, h3]
    · rw [(clearLLM_fields _).2.1, (orchAddMessage_fields _ _ _ _ _).2.1, h2, h3]
    · rw [(clearLLM_fields _).2.2, (orchAddMessage_fields _ _ _ _ _).2.2.2,
        synthesizeSentence_subs_flush r.st r.accum hz true]

theorem processUserMessage_none (maxMessages now : Nat) (st : OrchState)
    (text : String) (frags : List String) (h : text ≠ "") :
    processUserMessage maxMessages now st text frags none
      = finishReply maxMessages now
          (frags.foldl processFragment
            ⟨{ orchAddMessage maxMessages now st "user" text with
                llmStreaming := true, pending := "" }, ""⟩) := by
  unfold processUserMessage
  rw [if_neg h]

theorem processUserMessage_some (maxMessages now : Nat) (st : OrchState)
    (text : String) (frags : List String) (k : Nat) (h : text ≠ "") :
    processUserMessage maxMessages now st text frags (some k)
      = finishReply maxMessages now
          ⟨handleUserInterruption
            ((frags.take k).foldl processFragment
              ⟨{ orchAddMessage maxMessages now st "user" text with
                  llmStreaming := true, pending := "" }, ""⟩).st,
           ((frags.take k).foldl processFragment
              ⟨{ orchAddMessage maxMessages now st "user" text with
                  llmStreaming := true, pending := "" }, ""⟩).accum⟩ := by
  unfold processUserMessage
  rw [if_neg h]

theorem events_mono_trans {s1 s2 s3 : OrchState}
    (h1 : ∃ t, s2.events = s1.events ++ t)
    (h2 : ∃ t, s3.events = s2.events ++ t) :
    ∃ t, s3.events = s1.events ++ t := by
  obtain ⟨t1, e1⟩ := h1
  obtain ⟨t2, e2⟩ := h2
  exact ⟨t1 ++ t2, by rw [e2, e1, List.append_assoc]⟩

theorem processFragment_events (r : ReplyAcc) (c : String) :
    (processFragment r c).st.events = r.st.events ++ [Event.llmChunk c] := by
  unfold processFragment
  by_cases hd : lastCharIsDelim (r.accum ++ c) = true
  · simp only [hd, if_true]
    exact (synthesizeSentence_ghost _ _ _).2.2.2
  · simp only [hd, if_false]
    rfl

theorem foldPF_events_mono (l : List String) : ∀ (r : ReplyAcc),
    ∃ t, (l.foldl processFragment r).st.events = r.st.events ++ t := by
  induction l with
  | nil => intro r; exact ⟨[], by simp⟩
  | cons c l ih =>
      intro r
      refine @events_mono_trans _ (processFragment r c).st _ ?_ ?_
      · exact ⟨[Event.llmChunk c], processFragment_events r c⟩
      · exact ih (processFragment r c)

theorem finishReply_events (maxMessages now : Nat) (r : ReplyAcc) :
    (finishReply maxMessages now r).events = r.st.events := by
  unfold finishReply
  by_cases hz : jsTrim r.accum = ""
  · simp only [hz, if_true]
    rfl
  · simp only [hz, if_false]
    exact (synthesizeSentence_ghost _ _ _).2.2.2

theorem processUserMessage_events_mono (maxMessages now : Nat)
    (st : OrchState) (text : String) (frags : List String)
    (intr : Option Nat) :
    ∃ t, (processUserMessage maxMessages now st text frags intr).events
      = st.events ++ t := by
  unfold processUserMessage
  by_cases hz : text = ""
  · exact ⟨[], by simp [hz]⟩
  · simp only [hz, if_false]
    cases intr with
    | none =>
        rw [finishReply_events]
        exact foldPF_events_mono frags _
    | some k =>
        rw [finishReply_events]
        refine @events_mono_trans _ (((frags.take k).foldl processFragment
          ⟨{ orchAddMessage maxMessages now st "user" text with
              llmStreaming := true, pending := "" }, ""⟩).st) _ ?_ ?_
        · exact foldPF_events_mono (frags.take k) _
        · exact ⟨[Event.interruptionProcessed], rfl⟩

theorem step_events_mono (maxMessages now : Nat) (st : OrchState) (a : Act) :
    ∃ t, (step maxMessages now st a).events = st.events ++ t := by
  cases a with
  | audioFrame f =>
      unfold step handleIncomingAudio
      by_cases hs : st.agentSpeaking = true
      · exact ⟨[Event.interruptionProcessed, Event.sttForward f],
          by simp [hs, handleUserInterruption]⟩
      · exact ⟨[Event.sttForward f], by simp [hs]⟩
  | interimTranscript t =>
      unfold step handleTranscript
      exact ⟨[Event.transcriptInterim t], by simp [sendEvent]⟩
  | finalTranscript t frags intr =>
      unfold step handleTranscript
      simp only [if_true]
      refine @events_mono_trans _ (sendEvent st (Event.transcriptFinal t)) _ ?_ ?_
      · exact ⟨[Event.transcriptFinal t], rfl⟩
      · exact processUserMessage_events_mono maxMessages now _ _ frags intr
  | ttsComplete =>
      unfold step
      exact ⟨[Event.agentFinishedSpeaking], rfl⟩

theorem runFrom_events_mono (maxMessages now : Nat) (acts : List Act) :
    ∀ (st : OrchState),
      ∃ t, (runFrom maxMessages now st acts).events = st.events ++ t := by
  induction acts with
  | nil => intro st; exact ⟨[], by simp [runFrom]⟩
  | cons a acts ih =>
      intro st
      refine @events_mono_trans _ (step maxMessages now st a) _ ?_ ?_
      · exact step_events_mono maxMessages now st a
      · exact ih (step maxMessages now st a)

theorem hui_fields (st : OrchState) :
    (handleUserInterruption st).appended = st.appended ∧
    (handleUserInterruption st).history = st.history ∧
    (handleUserInterruption st).pending = "" ∧
    (handleUserInterruption st).subs = st.subs :=
  ⟨rfl, rfl, rfl, rfl⟩

/-! Claim C1. -/

/-- C1 counterexample: a barge-in arrives while the reply to "hola" is
still streaming (after the first LLM fragment). After the interruption
the history is not free of assistant entries for the cancelled reply:
it contains an empty-content assistant entry, because processUserMessage
still appends pendingLLMResponse — cleared to the empty string by
handleUserInterruption — when the cancelled stream ends. -/
theorem interrupted_reply_counterexample :
    (run 15 0 [Act.finalTranscript "hola" ["Vale."] (some 1)]).history
      = [⟨"user", "hola", 0⟩, ⟨"assistant", "", 0⟩] := by
  rfl

/-- C1 as amended: when a barge-in interrupts the reply procedure after
any number of delivered fragments, the interrupted reply's partial
content never reaches the history — the only messages appended during
the reply are the user turn and one assistant entry whose content is the
empty string (the pending reply cleared by the barge-in). -/
theorem interrupted_reply_appends_empty_assistant
    (maxMessages now : Nat) (st : OrchState) (text : String)
    (frags : List String) (k : Nat) (htext : text ≠ "") :
    (processUserMessage maxMessages now st text frags (some k)).appended
      = st.appended ++ [⟨"user", text, now⟩, ⟨"assistant", "", now⟩] ∧
    (processUserMessage maxMessages now st text frags (some k)).history
      = pushBounded maxMessages
          (pushBounded maxMessages st.history ⟨"user", text, now⟩)
          ⟨"assistant", "", now⟩ := by
  rw [processUserMessage_some maxMessages now st text frags k htext]
  obtain ⟨g1, g2, g3⟩ := foldPF_ghost (frags.take k)
      ⟨{ orchAddMessage maxMessages now st "user" text with
          llmStreaming := true, pending := "" }, ""⟩
  dsimp only at g1 g2 g3
  obtain ⟨f1, f2, f3⟩ := finishReply_ghost maxMessages now
      ⟨handleUserInterruption
        ((frags.take k).foldl processFragment
          ⟨{ orchAddMessage maxMessages now st "user" text with
              llmStreaming := true, pending := "" }, ""⟩).st,
       ((frags.take k).foldl processFragment
          ⟨{ orchAddMessage maxMessages now st "user" text with
              llmStreaming := true, pending := "" }, ""⟩).accum⟩
  dsimp only at f1 f2 f3 ⊢
  constructor
  · rw [f1, (hui_fields _).1, (hui_fields _).2.2.1, g1,
      (orchAddMessage_fields maxMessages now st "user" text).1,
      List.append_assoc]
    rfl
  · rw [f2, (hui_fields _).2.1, (hui_fields _).2.2.1, g2,
      (orchAddMessage_fields maxMessages now st "user" text).2.1]

/-- Witness for C1 as amended: the interrupted "hola" reply appends
exactly the user turn and one empty assistant entry. -/
theorem interrupted_reply_appends_empty_assistant_witness :
    (processUserMessage 15 0 initOrch "hola" ["Vale."] (some 1)).appended
      = [⟨"user", "hola", 0⟩, ⟨"assistant", "", 0⟩] ∧
    (processUserMessage 15 0 initOrch "hola" ["Vale."] (some 1)).history
      = pushBounded 15 (pushBounded 15 [] ⟨"user", "hola", 0⟩)
          ⟨"assistant", "", 0⟩ :=
  interrupted_reply_appends_empty_assistant 15 0 initOrch "hola" ["Vale."] 1
    (by decide)

/-! Claim C3. -/

/-- C3 counterexample: after an uninterrupted reply whose residual text
was submitted with flush=true, agent_speaking is still true (TTS
on_complete has not fired) while tts_streaming has already been cleared
by synthesizeSentence — so agent_speaking does not imply tts_streaming. -/
theorem agent_speaking_without_tts_streaming :
    (run 15 0 [Act.finalTranscript "hola" ["Hola"] none]).agentSpeaking = true ∧
    (run 15 0 [Act.finalTranscript "hola" ["Hola"] none]).ttsStreaming = false := by
  constructor <;> rfl

/-- C3 as amended: whenever agent_speaking is true, either tts_streaming
is true, or the most recent TTS submission was a flush=true submission
(after a flush=true synthesize returns, synthesizeSentence clears
tts_streaming while agent_speaking stays set until the TTS on_complete
callback or barge-in resets it). -/
theorem agent_speaking_flag_relation (maxMessages now : Nat)
    (acts : List Act)
    (h : (run maxMessages now acts).agentSpeaking = true) :
    (run maxMessages now acts).ttsStreaming = true ∨
    ((run maxMessages now acts).subs.getLast?).map Prod.snd = some true :=
  speakConsistent_runFrom maxMessages now acts initOrch
    (speakConsistent_of_notSpeaking rfl) h

/-- Witness for C3 as amended, at the counterexample state: the last
submission was indeed a flush=true submission. -/
theorem agent_speaking_flag_relation_witness :
    (run 15 0 [Act.finalTranscript "hola" ["Hola"] none]).ttsStreaming = true ∨
    ((run 15 0 [Act.finalTranscript "hola" ["Hola"] none]).subs.getLast?).map
        Prod.snd = some true :=
  agent_speaking_flag_relation 15 0 [Act.finalTranscript "hola" ["Hola"] none]
    (by rfl)

/-! Claim C4. -/

/-- C4: for an uninterrupted reply, the TTS submissions of the
orchestrator are exactly those of the spec's reply procedure — each time
the accumulator's last character after appending a fragment is a
sentence delimiter, the trimmed accumulated sentence goes out with
flush=false and the accumulator is reset, and the residual non-empty
text goes out with flush=true at stream end — and the messages appended
to the history are exactly the user turn plus one assistant entry whose
content is the concatenation of all fragments in arrival order. -/
theorem reply_sentences_and_history (maxMessages now : Nat)
    (st : OrchState) (text : String) (frags : List String)
    (htext : text ≠ "") :
    (processUserMessage maxMessages now st text frags none).subs
      = st.subs ++ specSentences frags ∧
    (processUserMessage maxMessages now st text frags none).appended
      = st.appended ++ [⟨"user", text, now⟩,
          ⟨"assistant", String.join frags, now⟩] := by
  rw [processUserMessage_none maxMessages now st text frags htext]
  obtain ⟨f1, f2, f3⟩ := finishReply_ghost maxMessages now
      (frags.foldl processFragment
        ⟨{ orchAddMessage maxMessages now st "user" text with
            llmStreaming := true, pending := "" }, ""⟩)
  obtain ⟨g1, g2, g3⟩ := foldPF_ghost frags
      ⟨{ orchAddMessage maxMessages now st "user" text with
          llmStreaming := true, pending := "" }, ""⟩
  obtain ⟨s1, s2⟩ := foldPF_subs frags
      ⟨{ orchAddMessage maxMessages now st "user" text with
          llmStreaming := true, pending := "" }, ""⟩
  dsimp only at f1 f2 f3 g1 g2 g3 s1 s2 ⊢
  constructor
  · rw [f3, s1, s2, (orchAddMessage_fields maxMessages now st "user" text).2.2.2,
      specSentences]
    by_cases hz : jsTrim (frags.foldl specReplyStep ([], "")).2 = ""
    · rw [if_pos hz, if_pos hz, List.append_nil]
    · rw [if_neg hz, if_neg hz, List.append_assoc]
  · have hjoin : String.join frags
        = frags.foldl (fun s c => s ++ c) "" := rfl
    rw [f1, g1, g3, (orchAddMessage_fields maxMessages now st "user" text).1,
      ← hjoin, List.append_assoc]
    rfl

/-- Witness for C4 on the spec's long-reply scenario: the fragments
"Vale.", " Te llamo", " por la", " fibra?" produce the submissions of
the spec reply procedure and a single assistant entry carrying the full
concatenation. -/
theorem reply_sentences_and_history_witness :
    (processUserMessage 15 0 initOrch "hola"
        ["Vale.", " Te llamo", " por la", " fibra?"] none).subs
      = initOrch.subs ++
          specSentences ["Vale.", " Te llamo", " por la", " fibra?"] ∧
    (processUserMessage 15 0 initOrch "hola"
        ["Vale.", " Te llamo", " por la", " fibra?"] none).appended
      = initOrch.appended ++ [⟨"user", "hola", 0⟩,
          ⟨"assistant",
            String.join ["Vale.", " Te llamo", " por la", " fibra?"], 0⟩] :=
  reply_sentences_and_history 15 0 initOrch "hola"
    ["Vale.", " Te llamo", " por la", " fibra?"] (by decide)

/-! Claim C7. -/

/-- C7: when a binary audio frame arrives while agent_speaking is true,
the orchestrator runs the barge-in procedure to completion — emitting
interruption_processed — strictly before forwarding the frame to the
STT adapter; and since every later step only appends to the event trace,
any transcript event caused by that frame (which STT can only produce
after receiving it) appears after both. -/
theorem barge_in_before_stt_forward (maxMessages now : Nat)
    (st : OrchState) (frame : Nat) (acts : List Act)
    (h : st.agentSpeaking = true) :
    (handleIncomingAudio st frame).events
      = st.events ++ [Event.interruptionProcessed, Event.sttForward frame] ∧
    ∃ tail,
      (runFrom maxMessages now (handleIncomingAudio st frame) acts).events
        = (st.events ++ [Event.interruptionProcessed, Event.sttForward frame])
            ++ tail := by
  have h1 : (handleIncomingAudio st frame).events
      = st.events ++ [Event.interruptionProcessed, Event.sttForward frame] := by
    unfold handleIncomingAudio
    rw [if_pos h]
    simp [handleUserInterruption]
  refine ⟨h1, ?_⟩
  obtain ⟨t, ht⟩ := runFrom_events_mono maxMessages now acts
    (handleIncomingAudio st frame)
  exact ⟨t, by rw [ht, h1]⟩

/-- Witness for C7 at a concrete speaking state. -/
theorem barge_in_before_stt_forward_witness :
    (handleIncomingAudio ⟨[], [], "", true, false, false, [], []⟩ 3).events
      = [Event.interruptionProcessed, Event.sttForward 3] ∧
    ∃ tail,
      (runFrom 15 0
        (handleIncomingAudio ⟨[], [], "", true, false, false, [], []⟩ 3)
        []).events
        = [Event.interruptionProcessed, Event.sttForward 3] ++ tail :=
  barge_in_before_stt_forward 15 0 ⟨[], [], "", true, false, false, [], []⟩ 3
    [] rfl

/-! Claim C2. -/

/-- C2: the TTS adapter's cancel does NOT set the internal cancelled
flag — the source's cancel only sends the single-space flush frame, so
isCancelled stays false for every state, and an audio chunk produced by
synthesis work submitted before the cancel is still delivered to the
registered on_audio_chunk callback afterwards (the drop-while-cancelled
branch of the message handler is unreachable from cancel). The claim's
required behaviour fails on the concrete post-cancel scenario. -/
theorem tts_cancel_does_not_drop_chunks :
    (∀ s : TTSState, (ttsCancel s).isCancelled = s.isCancelled) ∧
    ttsAfterCancelScenario.isCancelled = false ∧
    ttsAfterCancelScenario.delivered = [7] ∧
    ttsAfterCancelScenario.sent
      = [TTSFrame.bos, TTSFrame.textFrame "Hola." false,
         TTSFrame.flushFrame " "] := by
  refine ⟨?_, rfl, rfl, rfl⟩
  intro s
  unfold ttsCancel
  by_cases h : s.connected = true
  · rw [if_pos h]
  · rw [if_neg h]

/-! Claim C6. -/

/-- C6: neither realtime STT adapter filters the configured junk phrase
— the Deepgram Transcript handler and the Groq transcribeChunk tail drop
only empty (all-whitespace) transcripts, and forward the junk phrase
"Subtítulos realizados por la comunidad de Amara.org" to the transcript
callback as an ordinary final transcript; only the empty-transcript half
of the claim holds. -/
theorem stt_junk_phrase_not_filtered :
    deepgramTranscriptEvent [⟨junkPhrase, 98⟩] true
      = some (junkPhrase, true, 98) ∧
    groqTranscriptEvent junkPhrase = some (junkPhrase, true, 1) ∧
    deepgramTranscriptEvent [⟨"", 98⟩] true = none ∧
    deepgramTranscriptEvent [] true = none ∧
    groqTranscriptEvent "  " = none := by
  refine ⟨rfl, rfl, rfl, rfl, rfl⟩

/-! Claim C8. -/

theorem consumeStream_all_pieces_append (rest : List LLMUpstream) :
    ∀ (pre : List LLMUpstream), pre.all isPiece = true → ∀ acc,
      consumeStream (pre ++ rest) acc
        = consumeStream rest (consumeStream pre acc).fragments := by
  intro pre
  induction pre with
  | nil => intro _ acc; rfl
  | cons e pre ih =>
      intro hall acc
      have he : isPiece e = true := by
        have := List.all_eq_true.mp hall e (List.mem_cons_self e pre)
        exact this
      have hpre : pre.all isPiece = true := by
        apply List.all_eq_true.mpr
        intro x hx
        exact List.all_eq_true.mp hall x (List.mem_cons_of_mem e hx)
      cases e with
      | raiseErr n m => simp [isPiece] at he
      | piece c =>
          cases c with
          | none => simpa [consumeStream] using ih hpre acc
          | some t =>
              by_cases ht : t = ""
              · simpa [consumeStream, ht] using ih hpre acc
              · simpa [consumeStream, ht] using ih hpre (acc ++ [t])

theorem consumeStream_all_pieces_flags :
    ∀ (pre : List LLMUpstream), pre.all isPiece = true → ∀ acc,
      (consumeStream pre acc).errorCallbackInvoked = false ∧
      (consumeStream pre acc).threw = false := by
  intro pre
  induction pre with
  | nil => intro _ acc; exact ⟨rfl, rfl⟩
  | cons e pre ih =>
      intro hall acc
      have he : isPiece e = true :=
        List.all_eq_true.mp hall e (List.mem_cons_self e pre)
      have hpre : pre.all isPiece = true := by
        apply List.all_eq_true.mpr
        intro x hx
        exact List.all_eq_true.mp hall x (List.mem_cons_of_mem e hx)
      cases e with
      | raiseErr n m => simp [isPiece] at he
      | piece c =>
          cases c with
          | none => simpa [consumeStream] using ih hpre acc
          | some t =>
              by_cases ht : t = ""
              · simpa [consumeStream, ht] using ih hpre acc
              · simpa [consumeStream, ht] using ih hpre (acc ++ [t])

/-- C8: when cancel aborts an in-flight streamResponse, the upstream
iteration raises the distinguished AbortError after the fragments
delivered so far; the adapter translates it into a clean end of the
fragment sequence — the outcome is exactly that of a normally ended
stream over the same fragments, the registered error callback is not
invoked, nothing is re-thrown to the consumer, and anything the upstream
would have produced after the abort is never delivered. -/
theorem llm_abort_translated_to_clean_end (pre post : List LLMUpstream)
    (m : String) (hpre : pre.all isPiece = true) :
    consumeStream (pre ++ LLMUpstream.raiseErr "AbortError" m :: post) []
      = consumeStream pre [] ∧
    (consumeStream
        (pre ++ LLMUpstream.raiseErr "AbortError" m :: post)
        []).errorCallbackInvoked = false ∧
    (consumeStream
        (pre ++ LLMUpstream.raiseErr "AbortError" m :: post) []).threw
      = false := by
  have h1 : consumeStream (pre ++ LLMUpstream.raiseErr "AbortError" m :: post) []
      = consumeStream (LLMUpstream.raiseErr "AbortError" m :: post)
          (consumeStream pre []).fragments :=
    consumeStream_all_pieces_append _ pre hpre []
  have h2 : consumeStream (LLMUpstream.raiseErr "AbortError" m :: post)
      (consumeStream pre []).fragments
        = ⟨(consumeStream pre []).fragments, false, false⟩ := by
    simp [consumeStream]
  have h3 := consumeStream_all_pieces_flags pre hpre []
  have h4 : consumeStream pre []
      = ⟨(consumeStream pre []).fragments, false, false⟩ := by
    obtain ⟨e1, e2⟩ := h3
    cases hc : consumeStream pre [] with
    | mk fr ec th =>
        rw [hc] at e1 e2
        simp at e1 e2
        rw [e1, e2]
  refine ⟨?_, ?_, ?_⟩
  · rw [h1, h2, ← h4]
  · rw [h1, h2]
  · rw [h1, h2]

/-- Witness for C8: a stream aborted after two fragments delivers those
two fragments as a clean end, swallowing the AbortError and the
post-abort chunk. -/
theorem llm_abort_translated_to_clean_end_witness :
    consumeStream
        ([LLMUpstream.piece (some "Ho"), LLMUpstream.piece (some "la")]
          ++ LLMUpstream.raiseErr "AbortError" "cancelled"
              :: [LLMUpstream.piece (some "!")]) []
      = consumeStream
          [LLMUpstream.piece (some "Ho"), LLMUpstream.piece (some "la")] [] ∧
    (consumeStream
        ([LLMUpstream.piece (some "Ho"), LLMUpstream.piece (some "la")]
          ++ LLMUpstream.raiseErr "AbortError" "cancelled"
              :: [LLMUpstream.piece (some "!")]) []).errorCallbackInvoked
      = false ∧
    (consumeStream
        ([LLMUpstream.piece (some "Ho"), LLMUpstream.piece (some "la")]
          ++ LLMUpstream.raiseErr "AbortError" "cancelled"
              :: [LLMUpstream.piece (some "!")]) []).threw = false :=
  llm_abort_translated_to_clean_end
    [LLMUpstream.piece (some "Ho"), LLMUpstream.piece (some "la")]
    [LLMUpstream.piece (some "!")] "cancelled" (by decide)

end VoiceAgent
